import Mathlib

/-!
Verification of the daily-motivation-dashboard core (src/src/App.jsx):
quote normalization, the liked-quotes list operations, persistence
round-trip through a JSON model, theme preference, and the fetch
state transition.
-/

set_option maxHeartbeats 1000000

/-- Quote record as normalized by the app: `{ _id, content, author }`
(App.jsx lines 124-128, 167). All fields are strings. -/
structure Quote where
  _id : String
  content : String
  author : String
deriving DecidableEq, Repr

/-- Model of `likedQuotes.map((q) => q._id)` feeding the `Set` of liked ids
(App.jsx lines 84-87). The `Set` is modelled by the list of ids with
`contains` as `has`. -/
def likedIds (L : List Quote) : List String :=
  L.map (fun q => q._id)

/-- Membership test `likedIds.has(id)` (App.jsx line 90). -/
def isLiked (i : String) (L : List Quote) : Bool :=
  (likedIds L).contains i

/-- Model of `toggleLike` (App.jsx lines 155-169): no-op without a current
quote; if an entry with the same `_id` exists, filter it out; otherwise
prepend a copy of `{ _id, content, author }`. -/
def toggleLike (quote : Option Quote) (prev : List Quote) : List Quote :=
  match quote with
  | none => prev
  | some q =>
    if prev.any (fun x => x._id == q._id) then
      prev.filter (fun x => x._id != q._id)
    else
      { _id := q._id, content := q.content, author := q.author } :: prev

/-- Model of `removeLiked(id)` (App.jsx lines 172-174). -/
def removeLiked (i : String) (prev : List Quote) : List Quote :=
  prev.filter (fun q => q._id != i)

/-- Model of `clearLiked` (App.jsx lines 177-179). -/
def clearLiked : List Quote := []

/-- The id-uniqueness invariant of `LikedQuoteList`: no duplicate `_id`
values. -/
def idsNodup (L : List Quote) : Prop :=
  (likedIds L).Nodup

/-- Theme initializer (App.jsx lines 41-49): stored string if truthy,
`"dark"` on missing key, empty string, or a storage read that throws. -/
inductive StoreRead where
  | throws
  | missing
  | value (raw : String)
deriving DecidableEq, Repr

/-- Model of the `theme` `useState` initializer:
`localStorage.getItem(THEME_KEY) || "dark"` with a catch-all `"dark"`. -/
def themeInit : StoreRead → String
  | .throws => "dark"
  | .missing => "dark"
  | .value raw => if raw = "" then "dark" else raw

/-- Model of the theme toggle `onClick` (App.jsx line 211):
`t === "dark" ? "light" : "dark"`. -/
def toggleTheme (t : String) : String :=
  if t = "dark" then "light" else "dark"

/-- Remote `id` field of the API response: integer or string
(spec section 6: "integer/string `id`"). -/
inductive RemoteId where
  | num (n : Int)
  | str (s : String)
deriving DecidableEq, Repr

/-- JavaScript `String(id)` coercion for the remote id. -/
def RemoteId.toJsString : RemoteId → String
  | .num n => toString n
  | .str s => s

/-- Parsed body of a successful `https://dummyjson.com/quotes/random`
response: fields `id`, `quote`, `author` (App.jsx lines 121-127). -/
structure RemoteQuote where
  id : RemoteId
  quote : String
  author : String
deriving DecidableEq, Repr

/-- Normalization performed by `fetchRandomQuote` on success
(App.jsx lines 124-128): `{ _id: String(data.id), content: data.quote,
author: data.author }`. -/
def normalizeQuote (d : RemoteQuote) : Quote :=
  { _id := d.id.toJsString, content := d.quote, author := d.author }

/-- Character record from the `CHARACTERS` array (App.jsx lines 16-22). -/
structure Character where
  name : String
  img : String
  vibe : String
deriving DecidableEq, Repr

/-- The `CHARACTERS` array (App.jsx lines 16-22). -/
def CHARACTERS : List Character :=
  [ { name := "Goku", img := "/characters/goku.jpg", vibe := "Never Give Up" },
    { name := "Jinwoo", img := "/characters/jinwoo.jpg", vibe := "Level Up Mindset" },
    { name := "Saitama", img := "/characters/saitama.jpg", vibe := "Calm Power" },
    { name := "Gojo", img := "/characters/satorugojo.jpg", vibe := "Limitless Focus" },
    { name := "Tanjiro", img := "/characters/tanjiro.png", vibe := "Kind but Unbreakable" } ]

/-- App component state touched by `fetchRandomQuote`: the `useState`
cells `quote`, `loading`, `error`, `likedQuotes`, `character`, `sceneKey`. -/
structure AppState where
  quote : Option Quote
  loading : Bool
  error : String
  likedQuotes : List Quote
  character : Character
  sceneKey : Nat
deriving DecidableEq, Repr

/-- Outcome of the awaited `fetch` call as seen by `fetchRandomQuote`:
a transport error (rejection carrying an optional message), a non-ok
HTTP response, or a parsed JSON body. -/
inductive FetchResult where
  | transportError (msg : Option String)
  | httpError
  | success (data : RemoteQuote)
deriving DecidableEq, Repr

/-- Message stored by the catch branch (App.jsx line 139):
`e?.message || "Something went wrong"`. -/
def caughtMessage : Option String → String
  | none => "Something went wrong"
  | some t => if t = "" then "Something went wrong" else t

/-- Model of `fetchRandomQuote` (App.jsx lines 109-144) as a state
transformer given the fetch outcome and the randomly picked character:
sets `loading`/clears `error`, then on success installs the normalized
quote, new character and bumped `sceneKey`; on `!res.ok` throws
`"Failed to fetch quote"` into the catch branch; the catch branch stores
the message; `finally` clears `loading`. -/
def fetchRandomQuote (r : FetchResult) (pick : Character) (s : AppState) : AppState :=
  let s1 : AppState := { s with loading := true, error := "" }
  match r with
  | .success d =>
      { s1 with quote := some (normalizeQuote d), character := pick,
                sceneKey := s1.sceneKey + 1, loading := false }
  | .httpError =>
      { s1 with error := caughtMessage (some "Failed to fetch quote"), loading := false }
  | .transportError m =>
      { s1 with error := caughtMessage m, loading := false }

/-- JSON value as produced by `JSON.parse` and consumed by
`JSON.stringify`. Numbers are carried as their decimal lexeme so that no
floating-point semantics enter the model. -/
inductive Json where
  | null
  | boolean (b : Bool)
  | num (lexeme : String)
  | str (s : String)
  | arr (elems : List Json)
  | obj (members : List (String × Json))

/-- Lowercase hex digit for an escape, as emitted by `JSON.stringify`:
code point 48 onward for the digits, 87 onward for the letters. -/
def hexDigitChar (n : Nat) : Char :=
  if n < 10 then Char.ofNat (n + 48) else Char.ofNat (n + 87)

/-- Value of a hex digit accepted in a `\uXXXX` escape (either case). -/
def hexVal (c : Char) : Option Nat :=
  if c.isDigit then some (c.toNat - 48)
  else if 'a' ≤ c ∧ c ≤ 'f' then some (c.toNat - 87)
  else if 'A' ≤ c ∧ c ≤ 'F' then some (c.toNat - 55)
  else none

/-- Escape of one character inside a JSON string literal, following
`JSON.stringify`: quote and backslash get a backslash escape, the five
short control escapes are used where they exist, remaining control
characters become `\u00XX`, everything else passes through. -/
def escapeChar (c : Char) : List Char :=
  if c = '"' then ['\\', '"']
  else if c = '\\' then ['\\', '\\']
  else if c = Char.ofNat 8 then ['\\', 'b']
  else if c = Char.ofNat 9 then ['\\', 't']
  else if c = Char.ofNat 10 then ['\\', 'n']
  else if c = Char.ofNat 12 then ['\\', 'f']
  else if c = Char.ofNat 13 then ['\\', 'r']
  else if c.toNat < 32 then
    '\\' :: 'u' :: '0' :: '0' :: hexDigitChar (c.toNat / 16) :: [hexDigitChar (c.toNat % 16)]
  else [c]

/-- Escape of a whole character sequence. -/
def escapeList : List Char → List Char
  | [] => []
  | c :: cs => escapeChar c ++ escapeList cs

/- Serialization of a JSON value to characters, following
`JSON.stringify` with no indent argument: no whitespace, object members
in insertion order, strings quoted and escaped. -/
mutual

/-- Characters of `JSON.stringify` for one JSON value. -/
def serializeJson : Json → List Char
  | .null => ['n', 'u', 'l', 'l']
  | .boolean true => ['t', 'r', 'u', 'e']
  | .boolean false => ['f', 'a', 'l', 's', 'e']
  | .num lx => lx.data
  | .str s => '"' :: (escapeList s.data ++ ['"'])
  | .arr es => '[' :: (serializeElems es ++ [']'])
  | .obj ms => '\x7b' :: (serializeMembers ms ++ ['\x7d'])

/-- Comma-separated serialization of array elements. -/
def serializeElems : List Json → List Char
  | [] => []
  | [e] => serializeJson e
  | e :: es => serializeJson e ++ ',' :: serializeElems es

/-- Comma-separated serialization of object members. -/
def serializeMembers : List (String × Json) → List Char
  | [] => []
  | [(k, v)] => '"' :: (escapeList k.data ++ '"' :: ':' :: serializeJson v)
  | (k, v) :: ms =>
      ('"' :: (escapeList k.data ++ '"' :: ':' :: serializeJson v)) ++
        ',' :: serializeMembers ms

end

/-- String form of `JSON.stringify`. -/
def stringifyJson (j : Json) : String := ⟨serializeJson j⟩

/-- JSON insignificant whitespace. -/
def isJsonWs (c : Char) : Bool :=
  c = ' ' || c = Char.ofNat 9 || c = Char.ofNat 10 || c = Char.ofNat 13

/-- Skips insignificant whitespace, as `JSON.parse` does between tokens. -/
def skipWs : List Char → List Char
  | [] => []
  | c :: cs => if isJsonWs c then skipWs cs else c :: cs

/-- Combined value of four hex digits of a `\uXXXX` escape. -/
def hex4 (h1 h2 h3 h4 : Char) : Option Nat :=
  match hexVal h1, hexVal h2, hexVal h3, hexVal h4 with
  | some a, some b, some c, some d => some (((a * 16 + b) * 16 + c) * 16 + d)
  | _, _, _, _ => none

/-- Decodes one escape sequence after a backslash: the decoded character
and how many characters were consumed. `\uXXXX` surrogate pairs are
combined; a lone surrogate — representable in a JavaScript string but
not as a Unicode scalar value — is modelled by U+FFFD. -/
def decodeEscape (cs : List Char) : Option (Char × Nat) :=
  match cs with
  | [] => none
  | e :: cs' =>
    if e = '"' then some ('"', 1)
    else if e = '\\' then some ('\\', 1)
    else if e = '/' then some ('/', 1)
    else if e = 'b' then some (Char.ofNat 8, 1)
    else if e = 't' then some (Char.ofNat 9, 1)
    else if e = 'n' then some (Char.ofNat 10, 1)
    else if e = 'f' then some (Char.ofNat 12, 1)
    else if e = 'r' then some (Char.ofNat 13, 1)
    else if e = 'u' then
      match cs' with
      | h1 :: h2 :: h3 :: h4 :: rest =>
        match hex4 h1 h2 h3 h4 with
        | none => none
        | some v =>
          if v < 55296 ∨ 57344 ≤ v then some (Char.ofNat v, 5)
          else if v < 56320 then
            match rest with
            | '\\' :: 'u' :: g1 :: g2 :: g3 :: g4 :: _ =>
              match hex4 g1 g2 g3 g4 with
              | some w =>
                if 56320 ≤ w ∧ w < 57344 then
                  some (Char.ofNat (65536 + (v - 55296) * 1024 + (w - 56320)), 11)
                else some (Char.ofNat 65533, 5)
              | none => some (Char.ofNat 65533, 5)
            | _ => some (Char.ofNat 65533, 5)
          else some (Char.ofNat 65533, 5)
      | _ => none
    else none

/-- Body of a JSON string literal after the opening quote: collects
characters until the closing quote, decoding escapes with
`decodeEscape`. Unescaped control characters are rejected. -/
def parseStringBody (input : List Char) : Option (List Char × List Char) :=
  match input with
  | [] => none
  | c :: cs =>
    if c = '"' then some ([], cs)
    else if c = '\\' then
      match decodeEscape cs with
      | none => none
      | some (d, n) => (parseStringBody (cs.drop n)).map (fun r => (d :: r.1, r.2))
    else if c.toNat < 32 then none
    else (parseStringBody cs).map (fun r => (c :: r.1, r.2))
termination_by input.length
decreasing_by
  all_goals simp only [List.length_cons, List.length_drop]
  all_goals omega

/-- Integer part of a JSON number: `0` or a nonzero digit followed by
digits. -/
def parseIntPart (cs : List Char) : Option (List Char × List Char) :=
  match cs with
  | [] => none
  | c :: t =>
    if c = '0' then some (['0'], t)
    else if c.isDigit then
      let r := List.span Char.isDigit t
      some (c :: r.1, r.2)
    else none

/-- Optional fractional part of a JSON number. -/
def parseFracPart (cs : List Char) : Option (List Char × List Char) :=
  match cs with
  | '.' :: t =>
    let r := List.span Char.isDigit t
    if r.1.isEmpty then none else some ('.' :: r.1, r.2)
  | _ => some ([], cs)

/-- Optional exponent part of a JSON number. -/
def parseExpPart (cs : List Char) : Option (List Char × List Char) :=
  match cs with
  | [] => some ([], [])
  | c :: t =>
    if c = 'e' ∨ c = 'E' then
      match t with
      | [] => none
      | s :: t2 =>
        if s = '+' ∨ s = '-' then
          let r := List.span Char.isDigit t2
          if r.1.isEmpty then none else some (c :: s :: r.1, r.2)
        else
          let r := List.span Char.isDigit t
          if r.1.isEmpty then none else some (c :: r.1, r.2)
    else some ([], c :: t)

/-- Lexeme of a JSON number: optional minus, integer part, optional
fraction and exponent. -/
def parseNumberLexeme (cs : List Char) : Option (List Char × List Char) :=
  let sign : List Char × List Char :=
    match cs with
    | '-' :: t => (['-'], t)
    | _ => ([], cs)
  match parseIntPart sign.2 with
  | none => none
  | some (ip, r1) =>
    match parseFracPart r1 with
    | none => none
    | some (fp, r2) =>
      match parseExpPart r2 with
      | none => none
      | some (ep, r3) => some (sign.1 ++ ip ++ fp ++ ep, r3)

/- Recursive-descent JSON value parser modelling `JSON.parse`. The fuel
argument only bounds the recursion depth; the top-level wrapper passes
more fuel than any input can consume. -/
mutual

/-- Parses one JSON value. -/
def parseValue : Nat → List Char → Option (Json × List Char)
  | 0, _ => none
  | Nat.succ fuel, cs =>
    match skipWs cs with
    | [] => none
    | c :: cs' =>
      if c = 'n' then
        match cs' with
        | 'u' :: 'l' :: 'l' :: rest => some (.null, rest)
        | _ => none
      else if c = 't' then
        match cs' with
        | 'r' :: 'u' :: 'e' :: rest => some (.boolean true, rest)
        | _ => none
      else if c = 'f' then
        match cs' with
        | 'a' :: 'l' :: 's' :: 'e' :: rest => some (.boolean false, rest)
        | _ => none
      else if c = '"' then
        (parseStringBody cs').map (fun r => (.str ⟨r.1⟩, r.2))
      else if c = '[' then
        match skipWs cs' with
        | ']' :: rest => some (.arr [], rest)
        | cs2 => parseElems fuel cs2 []
      else if c = '\x7b' then
        match skipWs cs' with
        | [] => none
        | c2 :: rest =>
          if c2 = '\x7d' then some (.obj [], rest)
          else parseMembers fuel (c2 :: rest) []
      else if c = '-' ∨ c.isDigit then
        (parseNumberLexeme (c :: cs')).map (fun r => (.num ⟨r.1⟩, r.2))
      else none

/-- Parses the remaining elements of a non-empty array. -/
def parseElems : Nat → List Char → List Json → Option (Json × List Char)
  | 0, _, _ => none
  | Nat.succ fuel, cs, acc =>
    match parseValue fuel cs with
    | none => none
    | some (v, rest) =>
      match skipWs rest with
      | ',' :: r => parseElems fuel r (acc ++ [v])
      | ']' :: r => some (.arr (acc ++ [v]), r)
      | _ => none

/-- Parses the remaining members of a non-empty object. -/
def parseMembers : Nat → List Char → List (String × Json) → Option (Json × List Char)
  | 0, _, _ => none
  | Nat.succ fuel, cs, acc =>
    match skipWs cs with
    | '"' :: cs' =>
      match parseStringBody cs' with
      | none => none
      | some (k, rest) =>
        match skipWs rest with
        | ':' :: r =>
          match parseValue fuel r with
          | none => none
          | some (v, rest2) =>
            match skipWs rest2 with
            | [] => none
            | c2 :: r2 =>
              if c2 = ',' then parseMembers fuel r2 (acc ++ [(⟨k⟩, v)])
              else if c2 = '\x7d' then some (.obj (acc ++ [(⟨k⟩, v)]), r2)
              else none
        | _ => none
    | _ => none

end

/-- Model of `JSON.parse`: parse one value and require only whitespace
after it; any other input makes `JSON.parse` throw, modelled as `none`. -/
def jsonParse (s : String) : Option Json :=
  match parseValue (s.length + 1) s.data with
  | some (j, rest) => if (skipWs rest).isEmpty then some j else none
  | none => none

/-- JSON form of a liked quote as written by
`JSON.stringify(likedQuotes)`: one object whose members are `_id`,
`content`, `author` in insertion order (App.jsx line 167). -/
def quoteToJson (q : Quote) : Json :=
  .obj [("_id", .str q._id), ("content", .str q.content), ("author", .str q.author)]

/-- JSON form of the whole liked list. -/
def likedToJson (L : List Quote) : Json :=
  .arr (L.map quoteToJson)

/-- The persisted string `JSON.stringify(likedQuotes)` (App.jsx line 78). -/
def stringifyLiked (L : List Quote) : String :=
  stringifyJson (likedToJson L)

/-- Modelled from the spec: reads one `{id, content, author}` tuple back
out of a parsed JSON value, to state the persistence round-trip of spec
section 8. -/
def quoteOfJson : Json → Option Quote
  | .obj [("_id", .str i), ("content", .str c), ("author", .str a)] => some ⟨i, c, a⟩
  | _ => none

/-- Modelled from the spec: reads the sequence of `{id, content, author}`
tuples back out of a parsed JSON value. -/
def likedOfJson : Json → Option (List Quote)
  | .arr es => es.mapM quoteOfJson
  | _ => none

/-- Model of the `likedQuotes` `useState` initializer (App.jsx lines
66-73): the raw stored string if present and truthy is fed to
`JSON.parse`; a missing key, an empty string, a throwing storage read, or
a parse failure all give the empty array. The function is total, so no
exception escapes initialization. -/
def likedQuotesInit : StoreRead → Json
  | .throws => .arr []
  | .missing => .arr []
  | .value raw =>
    if raw = "" then .arr []
    else
      match jsonParse raw with
      | some j => j
      | none => .arr []

/-- Bridge between the `prev.some(...)` test used inside `toggleLike` and
the `Set`-based `isLiked`. -/
theorem any_id_eq_isLiked (i : String) (L : List Quote) :
    (L.any fun x => x._id == i) = isLiked i L := by
  induction L with
  | nil => rfl
  | cons a L ih =>
      simp only [List.any_cons, isLiked, likedIds, List.map_cons, List.contains_cons] at *
      rw [ih]
      rw [show (a._id == i) = (i == a._id) from by
        simp [beq_iff_eq, eq_comm]]

/-- Unfolding of `isLiked` to membership. -/
theorem isLiked_iff (i : String) (L : List Quote) :
    isLiked i L = true ↔ ∃ q ∈ L, q._id = i := by
  simp [isLiked, likedIds, List.contains, eq_comm]

/-- Unfolding of `isLiked = false` to absence. -/
theorem isLiked_eq_false_iff (i : String) (L : List Quote) :
    isLiked i L = false ↔ ∀ q ∈ L, q._id ≠ i := by
  rw [← Bool.not_eq_true, isLiked_iff]
  push_neg
  rfl

/-- A false `isLiked` test means the id is not among the liked ids. -/
theorem not_mem_ids_of_isLiked_false {i : String} {L : List Quote}
    (h : isLiked i L = false) : i ∉ likedIds L := by
  simp only [isLiked, List.contains, ← Bool.not_eq_true, List.elem_eq_mem,
    decide_eq_true_eq] at h
  exact h

/-- Unlike branch of `toggleLike`: when the id is already liked, the list is
filtered. -/
theorem toggleLike_of_liked (L : List Quote) (q : Quote)
    (h : isLiked q._id L = true) :
    toggleLike (some q) L = L.filter (fun x => x._id != q._id) := by
  have e : toggleLike (some q) L =
      if (L.any fun x => x._id == q._id) = true then L.filter (fun x => x._id != q._id)
      else { _id := q._id, content := q.content, author := q.author } :: L := rfl
  rw [e, any_id_eq_isLiked, h, if_pos rfl]

/-- Like branch of `toggleLike`: when the id is not yet liked, a copy of the
quote is prepended. -/
theorem toggleLike_of_not_liked (L : List Quote) (q : Quote)
    (h : isLiked q._id L = false) :
    toggleLike (some q) L = { _id := q._id, content := q.content, author := q.author } :: L := by
  have e : toggleLike (some q) L =
      if (L.any fun x => x._id == q._id) = true then L.filter (fun x => x._id != q._id)
      else { _id := q._id, content := q.content, author := q.author } :: L := rfl
  rw [e, any_id_eq_isLiked, h]
  simp

/-- Filtering by a non-member id is the identity. -/
theorem filter_ne_eq_self (i : String) (L : List Quote)
    (h : isLiked i L = false) :
    L.filter (fun x => x._id != i) = L := by
  rw [List.filter_eq_self]
  intro a ha
  have := (isLiked_eq_false_iff i L).mp h a ha
  simpa [bne] using this

/-- After filtering out an id, that id is no longer liked. -/
theorem isLiked_filter_ne (i : String) (L : List Quote) :
    isLiked i (L.filter (fun x => x._id != i)) = false := by
  rw [isLiked_eq_false_iff]
  intro a ha
  have := (List.mem_filter.mp ha).2
  simpa [bne] using this

/-- Cons-step unfolding of `isLiked`. -/
theorem isLiked_cons (i : String) (a : Quote) (L : List Quote) :
    isLiked i (a :: L) = ((i == a._id) || isLiked i L) := by
  cases h : i == a._id <;>
    simp_all [isLiked, likedIds, List.contains]

/-- An absent id gives a false `isLiked` test. -/
theorem isLiked_eq_false_of_not_mem {i : String} {L : List Quote}
    (h : i ∉ likedIds L) : isLiked i L = false := by
  rw [isLiked_eq_false_iff]
  intro a ha hai
  exact h (hai ▸ List.mem_map_of_mem (fun q => q._id) ha)

/-- Filtering the liked list preserves id-uniqueness. -/
theorem idsNodup_filter (L : List Quote) (p : Quote → Bool)
    (h : idsNodup L) : idsNodup (L.filter p) := by
  have hs : List.Sublist (likedIds (L.filter p)) (likedIds L) :=
    (List.filter_sublist L).map _
  exact h.sublist hs

/-- Decomposition of `removeLiked` on a present id under the
no-duplicate-ids invariant: the list splits around the unique matching
entry and exactly that entry is dropped. -/
theorem removeLiked_decomp (i : String) :
    ∀ L : List Quote, idsNodup L → isLiked i L = true →
      ∃ pre e post, L = pre ++ e :: post ∧ e._id = i ∧
        removeLiked i L = pre ++ post := by
  intro L
  induction L with
  | nil => intro _ hl; simp [isLiked, likedIds, List.contains] at hl
  | cons a L ih =>
    intro hnd hl
    have hnd' : a._id ∉ likedIds L ∧ idsNodup L := by
      have := List.nodup_cons.mp hnd
      exact this
    by_cases hai : a._id = i
    · refine ⟨[], a, L, rfl, hai, ?_⟩
      have hLfalse : isLiked i L = false :=
        isLiked_eq_false_of_not_mem (hai ▸ hnd'.1)
      show (a :: L).filter (fun q => q._id != i) = [] ++ L
      rw [List.filter_cons]
      have : (a._id != i) = false := by simp [bne, hai]
      rw [this]
      simp only [Bool.false_eq_true, if_false, List.nil_append]
      exact filter_ne_eq_self i L hLfalse
    · have hl' : isLiked i L = true := by
        rw [isLiked_cons] at hl
        have : (i == a._id) = false := by
          simp [beq_iff_eq]
          exact fun hh => hai hh.symm
        rw [this] at hl
        simpa using hl
      obtain ⟨pre, e, post, hsplit, hei, hrem⟩ := ih hnd'.2 hl'
      refine ⟨a :: pre, e, post, by rw [hsplit]; rfl, hei, ?_⟩
      show (a :: L).filter (fun q => q._id != i) = (a :: pre) ++ post
      rw [List.filter_cons]
      have : (a._id != i) = true := by simp [bne, hai]
      rw [this]
      simp only [if_true]
      rw [show List.filter (fun q => q._id != i) L = removeLiked i L from rfl, hrem]
      rfl

/-- C1: liking then unliking the same id — a pair of `toggleLike` calls on a
quote whose id is not currently liked — leaves the liked list unchanged,
with the same elements in the same order. -/
theorem c1_toggleLike_pair_identity (L : List Quote) (q : Quote)
    (h : isLiked q._id L = false) :
    toggleLike (some q) (toggleLike (some q) L) = L := by
  rw [toggleLike_of_not_liked L q h]
  have hq : ({ _id := q._id, content := q.content, author := q.author } : Quote) = q := rfl
  rw [hq]
  have h2 : isLiked q._id (q :: L) = true := by
    rw [isLiked_iff]
    exact ⟨q, List.mem_cons_self q L, rfl⟩
  rw [toggleLike_of_liked _ q h2, List.filter_cons]
  have : (q._id != q._id) = false := by simp
  rw [this]
  simp only [Bool.false_eq_true, if_false]
  exact filter_ne_eq_self q._id L h

/-- Witness for C1: the pair of toggles on id `"1"` over a one-element list
not containing it returns exactly that list. -/
theorem c1_witness :
    toggleLike (some ⟨"1", "A", "X"⟩)
        (toggleLike (some ⟨"1", "A", "X"⟩) [⟨"2", "B", "Y"⟩]) =
      [⟨"2", "B", "Y"⟩] :=
  c1_toggleLike_pair_identity [⟨"2", "B", "Y"⟩] ⟨"1", "A", "X"⟩ (by decide)

/-- C3: `toggleLike` is a no-op on a null quote, filters out the entry when
the id is present, prepends the copied `{_id, content, author}` record when
absent; and the spec's like/like/unlike scenario evaluates as stated. -/
theorem c3_toggleLike_rule :
    (∀ L : List Quote, toggleLike none L = L) ∧
    (∀ (L : List Quote) (q : Quote), isLiked q._id L = true →
        toggleLike (some q) L = L.filter (fun x => x._id != q._id)) ∧
    (∀ (L : List Quote) (q : Quote), isLiked q._id L = false →
        toggleLike (some q) L =
          { _id := q._id, content := q.content, author := q.author } :: L) ∧
    toggleLike (some ⟨"1", "A", "X"⟩)
        (toggleLike (some ⟨"2", "B", "Y"⟩)
          (toggleLike (some ⟨"1", "A", "X"⟩) [])) =
      [⟨"2", "B", "Y"⟩] :=
  ⟨fun _ => rfl, toggleLike_of_liked, toggleLike_of_not_liked, by decide⟩

/-- Witness for C3: both guarded branches applied at concrete inputs. -/
theorem c3_witness :
    toggleLike (some ⟨"1", "A", "X"⟩) [⟨"1", "A", "X"⟩] = [] ∧
    toggleLike (some ⟨"2", "B", "Y"⟩) [⟨"1", "A", "X"⟩] =
      [⟨"2", "B", "Y"⟩, ⟨"1", "A", "X"⟩] := by
  constructor
  · have h := c3_toggleLike_rule.2.1 [⟨"1", "A", "X"⟩] ⟨"1", "A", "X"⟩ (by decide)
    rw [h]
    decide
  · have h := c3_toggleLike_rule.2.2.1 [⟨"1", "A", "X"⟩] ⟨"2", "B", "Y"⟩ (by decide)
    rw [h]

/-- C4: `isLiked` is true immediately after a `toggleLike` call that adds
the id and false immediately after a `toggleLike` call that removes it. -/
theorem c4_isLiked_after_toggle (L : List Quote) (q : Quote) :
    (isLiked q._id L = false → isLiked q._id (toggleLike (some q) L) = true) ∧
    (isLiked q._id L = true → isLiked q._id (toggleLike (some q) L) = false) := by
  constructor
  · intro h
    rw [toggleLike_of_not_liked L q h, isLiked_iff]
    exact ⟨_, List.mem_cons_self _ _, rfl⟩
  · intro h
    rw [toggleLike_of_liked L q h]
    exact isLiked_filter_ne q._id L

/-- Witness for C4: both directions at concrete inputs. -/
theorem c4_witness :
    isLiked "1" (toggleLike (some ⟨"1", "A", "X"⟩) []) = true ∧
    isLiked "1" (toggleLike (some ⟨"1", "A", "X"⟩) [⟨"1", "A", "X"⟩]) = false :=
  ⟨(c4_isLiked_after_toggle [] ⟨"1", "A", "X"⟩).1 (by decide),
   (c4_isLiked_after_toggle [⟨"1", "A", "X"⟩] ⟨"1", "A", "X"⟩).2 (by decide)⟩

/-- C7: `removeLiked` on an absent id leaves the list unchanged (same
elements, same order); on a present id, under the no-duplicate-id
invariant, it removes exactly the entry with that id. -/
theorem c7_removeLiked_rule :
    (∀ (i : String) (L : List Quote), isLiked i L = false →
        removeLiked i L = L) ∧
    (∀ (i : String) (L : List Quote), idsNodup L → isLiked i L = true →
        ∃ pre e post, L = pre ++ e :: post ∧ e._id = i ∧
          removeLiked i L = pre ++ post) :=
  ⟨fun i L h => filter_ne_eq_self i L h, fun i L h1 h2 => removeLiked_decomp i L h1 h2⟩

/-- Witness for C7: both branches at concrete inputs. -/
theorem c7_witness :
    removeLiked "3" [⟨"1", "A", "X"⟩] = [⟨"1", "A", "X"⟩] ∧
    ∃ pre e post, [(⟨"2", "B", "Y"⟩ : Quote), ⟨"1", "A", "X"⟩] = pre ++ e :: post ∧
      e._id = "1" ∧
      removeLiked "1" [⟨"2", "B", "Y"⟩, ⟨"1", "A", "X"⟩] = pre ++ post :=
  ⟨c7_removeLiked_rule.1 "3" [⟨"1", "A", "X"⟩] (by decide),
   c7_removeLiked_rule.2 "1" [⟨"2", "B", "Y"⟩, ⟨"1", "A", "X"⟩]
     (by simp [idsNodup, likedIds]) (by decide)⟩

/-- C8: the no-duplicate-ids invariant is preserved by `toggleLike`,
`removeLiked` and `clearLiked`. -/
theorem c8_idsNodup_preserved (L : List Quote) (h : idsNodup L) :
    (∀ q, idsNodup (toggleLike q L)) ∧
    (∀ i, idsNodup (removeLiked i L)) ∧
    idsNodup clearLiked := by
  refine ⟨?_, ?_, List.nodup_nil⟩
  · intro q
    match q with
    | none => exact h
    | some q =>
      by_cases hq : isLiked q._id L = true
      · rw [toggleLike_of_liked L q hq]
        exact idsNodup_filter L _ h
      · have hq' : isLiked q._id L = false := by
          cases hb : isLiked q._id L
          · rfl
          · exact absurd hb hq
        rw [toggleLike_of_not_liked L q hq']
        exact List.nodup_cons.mpr ⟨not_mem_ids_of_isLiked_false hq', h⟩
  · intro i
    exact idsNodup_filter L _ h

/-- Witness for C8: invariant preservation at a concrete two-element list. -/
theorem c8_witness :
    idsNodup (toggleLike (some ⟨"1", "A", "X"⟩) [⟨"2", "B", "Y"⟩]) ∧
    idsNodup (removeLiked "2" [⟨"2", "B", "Y"⟩]) ∧
    idsNodup clearLiked := by
  have h := c8_idsNodup_preserved [⟨"2", "B", "Y"⟩] (by simp [idsNodup, likedIds])
  exact ⟨h.1 (some ⟨"1", "A", "X"⟩), h.2.1 "2", h.2.2⟩

/-- C9: the theme initializes to `"dark"` when the stored preference is
missing or the storage read throws, and the toggle flips between
`"dark"` and `"light"`. -/
theorem c9_theme_default_and_toggle :
    themeInit .throws = "dark" ∧ themeInit .missing = "dark" ∧
    toggleTheme "dark" = "light" ∧ toggleTheme "light" = "dark" := by
  refine ⟨rfl, rfl, by decide, by decide⟩

/-- C2: the normalized Quote copies the string-coerced remote `id`, the
remote `quote` text as `content`, and the remote `author`. -/
theorem c2_normalizeQuote_fields (d : RemoteQuote) :
    (normalizeQuote d)._id = d.id.toJsString ∧
    (normalizeQuote d).content = d.quote ∧
    (normalizeQuote d).author = d.author :=
  ⟨rfl, rfl, rfl⟩

/-- C10: on any fetch failure (non-ok HTTP response or transport error) the
current quote, the liked list, the character and the scene key are left
unchanged, the loading flag is cleared, and the error message is
non-empty. -/
theorem c10_fetch_failure_state (s : AppState) (pick : Character) :
    ((fetchRandomQuote .httpError pick s).quote = s.quote ∧
      (fetchRandomQuote .httpError pick s).likedQuotes = s.likedQuotes ∧
      (fetchRandomQuote .httpError pick s).character = s.character ∧
      (fetchRandomQuote .httpError pick s).sceneKey = s.sceneKey ∧
      (fetchRandomQuote .httpError pick s).loading = false ∧
      0 < (fetchRandomQuote .httpError pick s).error.length) ∧
    (∀ m, (fetchRandomQuote (.transportError m) pick s).quote = s.quote ∧
      (fetchRandomQuote (.transportError m) pick s).likedQuotes = s.likedQuotes ∧
      (fetchRandomQuote (.transportError m) pick s).character = s.character ∧
      (fetchRandomQuote (.transportError m) pick s).sceneKey = s.sceneKey ∧
      (fetchRandomQuote (.transportError m) pick s).loading = false ∧
      0 < (fetchRandomQuote (.transportError m) pick s).error.length) := by
  constructor
  · refine ⟨rfl, rfl, rfl, rfl, rfl, ?_⟩
    show 0 < (caughtMessage (some "Failed to fetch quote")).length
    decide
  · intro m
    refine ⟨rfl, rfl, rfl, rfl, rfl, ?_⟩
    show 0 < (caughtMessage m).length
    match m with
    | none => decide
    | some t =>
      have e : caughtMessage (some t) =
          if t = "" then "Something went wrong" else t := rfl
      rw [e]
      by_cases ht : t = ""
      · rw [if_pos ht]; decide
      · rw [if_neg ht]
        have : t.length ≠ 0 := by
          intro hz
          have hd : t.data = [] := List.length_eq_zero.mp hz
          exact ht (String.ext hd)
        omega

/-- Hex digits emitted by the escaper decode to their value. -/
theorem hexVal_hexDigitChar : ∀ n, n < 16 → hexVal (hexDigitChar n) = some n := by
  decide

/-- Whitespace skipping is the identity on a non-whitespace head. -/
theorem skipWs_cons (c : Char) (cs : List Char) (h : isJsonWs c = false) :
    skipWs (c :: cs) = c :: cs := by
  simp [skipWs, h]

/-- Closing quote stops the string body parser. -/
theorem psb_close (cs : List Char) : parseStringBody ('"' :: cs) = some ([], cs) := by
  conv_lhs => rw [parseStringBody.eq_def]
  simp

/-- Plain characters pass through the string body parser. -/
theorem psb_plain (c : Char) (cs : List Char) (h1 : ¬c = '"') (h2 : ¬c = '\\')
    (h3 : ¬c.toNat < 32) :
    parseStringBody (c :: cs) = (parseStringBody cs).map (fun r => (c :: r.1, r.2)) := by
  conv_lhs => rw [parseStringBody.eq_def]
  simp [h1, h2, h3]

/-- One-step unfolding of the string body parser on an escape whose
decoding is known. -/
theorem psb_esc_step (cs : List Char) (d : Char) (n : Nat)
    (h : decodeEscape cs = some (d, n)) :
    parseStringBody ('\\' :: cs) = (parseStringBody (cs.drop n)).map (fun r => (d :: r.1, r.2)) := by
  conv_lhs => rw [parseStringBody.eq_def]
  simp [h]

/-- Combined hex value of a `00XX` digit group emitted by the escaper. -/
theorem hex4_u00 (d1 d2 : Nat) (h1 : d1 < 16) (h2 : d2 < 16) :
    hex4 '0' '0' (hexDigitChar d1) (hexDigitChar d2) = some (d1 * 16 + d2) := by
  simp only [hex4]
  rw [hexVal_hexDigitChar d1 h1, hexVal_hexDigitChar d2 h2]
  show some ((((0 : Nat) * 16 + 0) * 16 + d1) * 16 + d2) = some (d1 * 16 + d2)
  congr 1
  ring

/-- A `\u00XX` escape emitted by the escaper decodes back to its code
point. -/
theorem decodeEscape_u00 (d1 d2 : Nat) (cs : List Char) (h1 : d1 < 16) (h2 : d2 < 16) :
    decodeEscape ('u' :: '0' :: '0' :: hexDigitChar d1 :: hexDigitChar d2 :: cs)
      = some (Char.ofNat (d1 * 16 + d2), 5) := by
  simp only [decodeEscape]
  rw [hex4_u00 d1 d2 h1 h2]
  have hlt : d1 * 16 + d2 < 55296 := by omega
  simp [hlt]

/-- Round trip of string-body escaping: parsing the escaped characters
followed by a closing quote returns the original characters. -/
theorem parseStringBody_escapeList (s : List Char) : ∀ rest : List Char,
    parseStringBody (escapeList s ++ '"' :: rest) = some (s, rest) := by
  induction s with
  | nil =>
    intro rest
    show parseStringBody ('"' :: rest) = some ([], rest)
    exact psb_close rest
  | cons c s ih =>
    intro rest
    show parseStringBody ((escapeChar c ++ escapeList s) ++ '"' :: rest) = some (c :: s, rest)
    rw [List.append_assoc]
    by_cases h1 : c = '"'
    · subst h1
      rw [show escapeChar '"' = ['\\', '"'] from rfl]
      simp only [List.cons_append, List.nil_append]
      have hd : decodeEscape ('"' :: (escapeList s ++ '"' :: rest)) = some ('"', 1) := rfl
      rw [psb_esc_step _ _ _ hd]
      have hdrop : ('"' :: (escapeList s ++ '"' :: rest)).drop 1 = escapeList s ++ '"' :: rest := rfl
      rw [hdrop, ih rest]
      rfl
    · by_cases h2 : c = '\\'
      · subst h2
        rw [show escapeChar '\\' = ['\\', '\\'] from rfl]
        simp only [List.cons_append, List.nil_append]
        have hd : decodeEscape ('\\' :: (escapeList s ++ '"' :: rest)) = some ('\\', 1) := rfl
        rw [psb_esc_step _ _ _ hd]
        have hdrop : ('\\' :: (escapeList s ++ '"' :: rest)).drop 1 = escapeList s ++ '"' :: rest := rfl
        rw [hdrop, ih rest]
        rfl
      · by_cases h3 : c = Char.ofNat 8
        · subst h3
          rw [show escapeChar (Char.ofNat 8) = ['\\', 'b'] from rfl]
          simp only [List.cons_append, List.nil_append]
          have hd : decodeEscape ('b' :: (escapeList s ++ '"' :: rest)) = some (Char.ofNat 8, 1) := rfl
          rw [psb_esc_step _ _ _ hd]
          have hdrop : ('b' :: (escapeList s ++ '"' :: rest)).drop 1 = escapeList s ++ '"' :: rest := rfl
          rw [hdrop, ih rest]
          rfl
        · by_cases h4 : c = Char.ofNat 9
          · subst h4
            rw [show escapeChar (Char.ofNat 9) = ['\\', 't'] from rfl]
            simp only [List.cons_append, List.nil_append]
            have hd : decodeEscape ('t' :: (escapeList s ++ '"' :: rest)) = some (Char.ofNat 9, 1) := rfl
            rw [psb_esc_step _ _ _ hd]
            have hdrop : ('t' :: (escapeList s ++ '"' :: rest)).drop 1 = escapeList s ++ '"' :: rest := rfl
            rw [hdrop, ih rest]
            rfl
          · by_cases h5 : c = Char.ofNat 10
            · subst h5
              rw [show escapeChar (Char.ofNat 10) = ['\\', 'n'] from rfl]
              simp only [List.cons_append, List.nil_append]
              have hd : decodeEscape ('n' :: (escapeList s ++ '"' :: rest)) = some (Char.ofNat 10, 1) := rfl
              rw [psb_esc_step _ _ _ hd]
              have hdrop : ('n' :: (escapeList s ++ '"' :: rest)).drop 1 = escapeList s ++ '"' :: rest := rfl
              rw [hdrop, ih rest]
              rfl
            · by_cases h6 : c = Char.ofNat 12
              · subst h6
                rw [show escapeChar (Char.ofNat 12) = ['\\', 'f'] from rfl]
                simp only [List.cons_append, List.nil_append]
                have hd : decodeEscape ('f' :: (escapeList s ++ '"' :: rest)) = some (Char.ofNat 12, 1) := rfl
                rw [psb_esc_step _ _ _ hd]
                have hdrop : ('f' :: (escapeList s ++ '"' :: rest)).drop 1 = escapeList s ++ '"' :: rest := rfl
                rw [hdrop, ih rest]
                rfl
              · by_cases h7 : c = Char.ofNat 13
                · subst h7
                  rw [show escapeChar (Char.ofNat 13) = ['\\', 'r'] from rfl]
                  simp only [List.cons_append, List.nil_append]
                  have hd : decodeEscape ('r' :: (escapeList s ++ '"' :: rest)) = some (Char.ofNat 13, 1) := rfl
                  rw [psb_esc_step _ _ _ hd]
                  have hdrop : ('r' :: (escapeList s ++ '"' :: rest)).drop 1 = escapeList s ++ '"' :: rest := rfl
                  rw [hdrop, ih rest]
                  rfl
                · by_cases h8 : c.toNat < 32
                  · have he : escapeChar c =
                        '\\' :: 'u' :: '0' :: '0' :: hexDigitChar (c.toNat / 16) ::
                          [hexDigitChar (c.toNat % 16)] := by
                      simp [escapeChar, h1, h2, h3, h4, h5, h6, h7, h8]
                    rw [he]
                    simp only [List.cons_append, List.nil_append]
                    have hd := decodeEscape_u00 (c.toNat / 16) (c.toNat % 16)
                      (escapeList s ++ '"' :: rest) (by omega) (by omega)
                    rw [psb_esc_step _ _ _ hd]
                    have hdrop : ('u' :: '0' :: '0' :: hexDigitChar (c.toNat / 16) ::
                        hexDigitChar (c.toNat % 16) :: (escapeList s ++ '"' :: rest)).drop 5
                        = escapeList s ++ '"' :: rest := rfl
                    rw [hdrop, ih rest]
                    have hn : c.toNat / 16 * 16 + c.toNat % 16 = c.toNat := by omega
                    rw [hn, Char.ofNat_toNat]
                    rfl
                  · have he : escapeChar c = [c] := by
                      simp [escapeChar, h1, h2, h3, h4, h5, h6, h7, h8]
                    rw [he]
                    simp only [List.cons_append, List.nil_append]
                    rw [psb_plain c _ h1 h2 h8, ih rest]
                    rfl

/-- Parsing the serialization of a JSON string value. -/
theorem parseValue_str (f : Nat) (s : String) (rest : List Char) :
    parseValue (f + 1) (serializeJson (.str s) ++ rest) = some (.str s, rest) := by
  have hshape : serializeJson (.str s) ++ rest
      = '"' :: (escapeList s.data ++ '"' :: rest) := by
    show ('"' :: (escapeList s.data ++ ['"'])) ++ rest = _
    simp [List.cons_append, List.append_assoc]
  rw [hshape]
  simp only [parseValue]
  rw [skipWs_cons _ _ (by decide)]
  simp only [parseStringBody_escapeList s.data ('"' :: rest)]
  simp
  exact ⟨s.data, parseStringBody_escapeList s.data rest, rfl⟩

/-- Parsing one serialized string-valued member followed by a comma. -/
theorem parseMembers_str_comma (f : Nat) (k s : String) (tail : List Char)
    (acc : List (String × Json)) :
    parseMembers (f + 2)
        ('"' :: (escapeList k.data ++ '"' :: ':' :: (serializeJson (.str s) ++ ',' :: tail))) acc
      = parseMembers (f + 1) tail (acc ++ [(k, .str s)]) := by
  simp only [parseMembers]
  rw [skipWs_cons _ _ (by decide)]
  simp [parseStringBody_escapeList, parseValue_str, skipWs_cons, isJsonWs]

/-- Parsing the last serialized string-valued member followed by the
closing brace. -/
theorem parseMembers_str_close (f : Nat) (k s : String) (tail : List Char)
    (acc : List (String × Json)) :
    parseMembers (f + 2)
        ('"' :: (escapeList k.data ++ '"' :: ':' :: (serializeJson (.str s) ++ '\x7d' :: tail))) acc
      = some (.obj (acc ++ [(k, .str s)]), tail) := by
  simp only [parseMembers]
  rw [skipWs_cons _ _ (by decide)]
  simp [parseStringBody_escapeList, parseValue_str, skipWs_cons, isJsonWs]

/-- Parsing the serialization of one liked-quote object. -/
theorem parseValue_quoteObj (f : Nat) (q : Quote) (rest : List Char) :
    parseValue (f + 5) (serializeJson (quoteToJson q) ++ rest) = some (quoteToJson q, rest) := by
  have h0 : serializeJson (quoteToJson q)
      = '\x7b' :: (serializeMembers
          [("_id", .str q._id), ("content", .str q.content), ("author", .str q.author)]
          ++ ['\x7d']) := rfl
  have h1 : serializeMembers
        [("_id", .str q._id), ("content", .str q.content), ("author", .str q.author)]
      = ('"' :: (escapeList "_id".data ++ '"' :: ':' :: serializeJson (.str q._id))) ++ ',' ::
          (('"' :: (escapeList "content".data ++ '"' :: ':' :: serializeJson (.str q.content))) ++ ',' ::
            ('"' :: (escapeList "author".data ++ '"' :: ':' :: serializeJson (.str q.author)))) := rfl
  have hshape : serializeJson (quoteToJson q) ++ rest
      = '\x7b' :: '"' :: (escapeList "_id".data ++ '"' :: ':' ::
          (serializeJson (.str q._id) ++ ',' :: '"' :: (escapeList "content".data ++ '"' :: ':' ::
          (serializeJson (.str q.content) ++ ',' :: '"' :: (escapeList "author".data ++ '"' :: ':' ::
          (serializeJson (.str q.author) ++ '\x7d' :: rest)))))) := by
    rw [h0, h1]
    simp [List.cons_append, List.append_assoc]
  rw [hshape]
  simp only [parseValue]
  rw [skipWs_cons _ _ (by decide)]
  simp only [isJsonWs, skipWs_cons]
  simp
  rw [skipWs_cons _ _ (by decide)]
  simp
  rw [parseMembers_str_comma (f + 2) "_id" q._id _ []]
  rw [parseMembers_str_comma (f + 1) "content" q.content _ _]
  rw [parseMembers_str_close f "author" q.author rest _]
  simp [quoteToJson]

/-- One-step unfolding of the element parser at positive fuel. -/
theorem parseElems_one (fuel : Nat) (cs : List Char) (acc : List Json) :
    parseElems (fuel + 1) cs acc
      = match parseValue fuel cs with
        | none => none
        | some (v, rest) =>
          match skipWs rest with
          | ',' :: r => parseElems fuel r (acc ++ [v])
          | ']' :: r => some (.arr (acc ++ [v]), r)
          | _ => none := rfl

/-- Parsing the serialized elements of a non-empty list of liked quotes. -/
theorem parseElems_quotes (L : List Quote) :
    ∀ (q : Quote) (rest : List Char) (acc : List Json) (f : Nat),
      parseElems (6 * L.length + f + 6)
          (serializeElems ((q :: L).map quoteToJson) ++ ']' :: rest) acc
        = some (.arr (acc ++ (q :: L).map quoteToJson), rest) := by
  induction L with
  | nil =>
    intro q rest acc f
    have hIN : serializeElems (([q] : List Quote).map quoteToJson) ++ ']' :: rest
        = serializeJson (quoteToJson q) ++ ']' :: rest := rfl
    rw [hIN]
    have h1 : 6 * ([] : List Quote).length + f + 6 = (f + 5) + 1 := by
      simp
    rw [h1, parseElems_one]
    rw [parseValue_quoteObj f q (']' :: rest)]
    simp [skipWs_cons, isJsonWs]
  | cons q2 L2 ih =>
    intro q rest acc f
    have hIN : serializeElems ((q :: q2 :: L2).map quoteToJson) ++ ']' :: rest
        = serializeJson (quoteToJson q)
            ++ ',' :: (serializeElems ((q2 :: L2).map quoteToJson) ++ ']' :: rest) := by
      have hstep : serializeElems ((q :: q2 :: L2).map quoteToJson)
          = serializeJson (quoteToJson q) ++ ',' :: serializeElems ((q2 :: L2).map quoteToJson) := rfl
      rw [hstep]
      simp [List.cons_append, List.append_assoc]
    rw [hIN]
    have h1 : 6 * (q2 :: L2).length + f + 6 = (6 * L2.length + f + 11) + 1 := by
      simp [List.length_cons]
      ring
    rw [h1, parseElems_one]
    have h2 : 6 * L2.length + f + 11 = (6 * L2.length + f + 6) + 5 := by omega
    rw [h2]
    rw [parseValue_quoteObj (6 * L2.length + f + 6) q
      (',' :: (serializeElems ((q2 :: L2).map quoteToJson) ++ ']' :: rest))]
    show parseElems ((6 * L2.length + f + 6) + 5)
        (serializeElems ((q2 :: L2).map quoteToJson) ++ ']' :: rest) (acc ++ [quoteToJson q])
      = some (.arr (acc ++ (q :: q2 :: L2).map quoteToJson), rest)
    have h3 : (6 * L2.length + f + 6) + 5 = 6 * L2.length + (f + 5) + 6 := by omega
    rw [h3]
    rw [ih q2 rest (acc ++ [quoteToJson q]) (f + 5)]
    simp [List.append_assoc]

/-- One-step unfolding of the value parser on an opening bracket. -/
theorem parseValue_lbracket (fuel : Nat) (cs' : List Char) :
    parseValue (fuel + 1) ('[' :: cs')
      = match skipWs cs' with
        | ']' :: rest => some (.arr [], rest)
        | cs2 => parseElems fuel cs2 [] := rfl

/-- Parsing the serialization of the whole liked list. -/
theorem parseValue_likedArr (f : Nat) (L : List Quote) (rest : List Char) :
    parseValue (6 * L.length + f + 7) (serializeJson (likedToJson L) ++ rest)
      = some (likedToJson L, rest) := by
  match L with
  | [] =>
    have h1 : 6 * ([] : List Quote).length + f + 7 = (f + 6) + 1 := by simp
    rw [h1]
    show parseValue ((f + 6) + 1) ('[' :: ']' :: rest) = some (.arr [], rest)
    rw [parseValue_lbracket]
    rfl
  | q :: L2 =>
    have hIN : serializeJson (likedToJson (q :: L2)) ++ rest
        = '[' :: (serializeElems ((q :: L2).map quoteToJson) ++ ']' :: rest) := by
      show ('[' :: (serializeElems ((q :: L2).map quoteToJson) ++ [']'])) ++ rest = _
      simp [List.cons_append, List.append_assoc]
    rw [hIN]
    have h1 : 6 * (q :: L2).length + f + 7 = (6 * L2.length + f + 12) + 1 := by
      simp [List.length_cons]
      ring
    rw [h1, parseValue_lbracket]
    cases L2 with
    | nil =>
      show parseElems (6 * ([] : List Quote).length + f + 12)
          (serializeElems (([q] : List Quote).map quoteToJson) ++ ']' :: rest) []
        = some (likedToJson [q], rest)
      have h3 : 6 * ([] : List Quote).length + f + 12 = 6 * ([] : List Quote).length + (f + 6) + 6 := by
        simp
      rw [h3]
      have h4 := parseElems_quotes [] q rest [] (f + 6)
      rw [h4]
      simp [likedToJson]
    | cons q2 L3 =>
      show parseElems (6 * (q2 :: L3).length + f + 12)
          (serializeElems ((q :: q2 :: L3).map quoteToJson) ++ ']' :: rest) []
        = some (likedToJson (q :: q2 :: L3), rest)
      have h3 : 6 * (q2 :: L3).length + f + 12 = 6 * (q2 :: L3).length + (f + 6) + 6 := by
        omega
      rw [h3]
      have h4 := parseElems_quotes (q2 :: L3) q rest [] (f + 6)
      rw [h4]
      simp [likedToJson]

/-- Lower bound on the serialized length of one quote object. -/
theorem serializeQuote_length_lb (q : Quote) :
    13 ≤ (serializeJson (quoteToJson q)).length := by
  have h0 : serializeJson (quoteToJson q)
      = '\x7b' :: (serializeMembers
          [("_id", .str q._id), ("content", .str q.content), ("author", .str q.author)]
          ++ ['\x7d']) := rfl
  have h1 : serializeMembers
        [("_id", .str q._id), ("content", .str q.content), ("author", .str q.author)]
      = ('"' :: (escapeList "_id".data ++ '"' :: ':' :: serializeJson (.str q._id))) ++ ',' ::
          (('"' :: (escapeList "content".data ++ '"' :: ':' :: serializeJson (.str q.content))) ++ ',' ::
            ('"' :: (escapeList "author".data ++ '"' :: ':' :: serializeJson (.str q.author)))) := rfl
  have h2 : ∀ s : String, serializeJson (.str s) = '"' :: (escapeList s.data ++ ['"']) :=
    fun _ => rfl
  rw [h0, h1, h2, h2, h2]
  simp [List.length_append, List.length_cons]
  omega

/-- Lower bound on the serialized length of a non-empty element list. -/
theorem serializeElems_length_lb (L : List Quote) :
    ∀ q : Quote, 13 * (L.length + 1) ≤ (serializeElems ((q :: L).map quoteToJson)).length := by
  induction L with
  | nil =>
    intro q
    have hs : serializeElems (([q] : List Quote).map quoteToJson)
        = serializeJson (quoteToJson q) := rfl
    rw [hs]
    simpa using serializeQuote_length_lb q
  | cons q2 L3 ih =>
    intro q
    have hs : serializeElems ((q :: q2 :: L3).map quoteToJson)
        = serializeJson (quoteToJson q) ++ ',' :: serializeElems ((q2 :: L3).map quoteToJson) := rfl
    rw [hs]
    have hq := serializeQuote_length_lb q
    have ht := ih q2
    simp only [List.length_append, List.length_cons, List.length_map] at *
    omega

/-- Parsing the persisted string reproduces the JSON form of the liked
list: the top-level fuel passed by `jsonParse` always suffices. -/
theorem jsonParse_stringifyLiked (L : List Quote) :
    jsonParse (stringifyLiked L) = some (likedToJson L) := by
  match L with
  | [] => rfl
  | q :: L2 =>
    have hdata : (stringifyLiked (q :: L2)).data = serializeJson (likedToJson (q :: L2)) := rfl
    have hlen : (stringifyLiked (q :: L2)).length = (serializeJson (likedToJson (q :: L2))).length := rfl
    have hlb : 13 * (L2.length + 1) + 2 ≤ (serializeJson (likedToJson (q :: L2))).length := by
      have h0 : serializeJson (likedToJson (q :: L2))
          = '[' :: (serializeElems ((q :: L2).map quoteToJson) ++ [']']) := rfl
      have h1 := serializeElems_length_lb L2 q
      rw [h0]
      simp only [List.length_append, List.length_cons]
      omega
    simp only [jsonParse, hdata, hlen]
    have hfuel : (serializeJson (likedToJson (q :: L2))).length + 1
        = 6 * (q :: L2).length +
            ((serializeJson (likedToJson (q :: L2))).length + 1 - 6 * (q :: L2).length - 7) + 7 := by
      simp only [List.length_cons]
      omega
    rw [hfuel]
    have hp := parseValue_likedArr
      ((serializeJson (likedToJson (q :: L2))).length + 1 - 6 * (q :: L2).length - 7)
      (q :: L2) []
    rw [List.append_nil] at hp
    rw [hp]
    rfl

/-- Reading the tuples back out of the JSON form gives the original
list. -/
theorem likedOfJson_likedToJson (L : List Quote) :
    likedOfJson (likedToJson L) = some L := by
  induction L with
  | nil => rfl
  | cons q L2 ih =>
    show ((q :: L2).map quoteToJson).mapM quoteOfJson = some (q :: L2)
    rw [List.map_cons, List.mapM_cons]
    have hq : quoteOfJson (quoteToJson q) = some q := rfl
    have ih' : (L2.map quoteToJson).mapM quoteOfJson = some L2 := ih
    rw [hq, ih']
    rfl

/-- C6: serializing any liked list to its persisted JSON string and
deserializing that string reproduces the JSON form, and reading the
`{id, content, author}` tuples back gives the same sequence in the same
order. -/
theorem c6_persistence_roundtrip (L : List Quote) :
    jsonParse (stringifyLiked L) = some (likedToJson L) ∧
    (jsonParse (stringifyLiked L)).bind likedOfJson = some L := by
  refine ⟨jsonParse_stringifyLiked L, ?_⟩
  rw [jsonParse_stringifyLiked L]
  show likedOfJson (likedToJson L) = some L
  exact likedOfJson_likedToJson L

/-- C5: the liked-list initializer yields the empty array when the stored
key is missing, when the storage read throws, and when the stored content
is malformed (rejected by `JSON.parse`); being a total function, it can
raise no exception. -/
theorem c5_liked_init_safe :
    likedQuotesInit .throws = Json.arr [] ∧
    likedQuotesInit .missing = Json.arr [] ∧
    (∀ raw, jsonParse raw = none → likedQuotesInit (.value raw) = Json.arr []) := by
  refine ⟨rfl, rfl, ?_⟩
  intro raw h
  by_cases hr : raw = ""
  · simp [likedQuotesInit, hr]
  · simp [likedQuotesInit, hr, h]

/-- Witness for C5: a concrete malformed stored string initializes to the
empty array. -/
theorem c5_witness :
    jsonParse "not json" = none ∧
    likedQuotesInit (.value "not json") = Json.arr [] :=
  ⟨rfl, c5_liked_init_safe.2.2 "not json" rfl⟩
